import Mathlib

set_option linter.unusedVariables false
set_option autoImplicit false

/-!
Shallow embedding of the house-bidding ink contract (src/lib.rs).

Modelling conventions:
* The source's `AccountId` (`[u8; 32]`) is modelled as `Nat`, with `0` the
  zero address.
* The source's `Balance` (`u128`) is modelled as `Nat`; the contract never
  does arithmetic on balances, only comparisons.
* The source aliases `type HouseId = i32` and `type BidderId = i32`; both are
  modelled as `Int`.  In the source a counter overflow is a checked-arithmetic
  panic, i.e. a host trap that discards every write of the invocation; a
  trapped call therefore leaves the state unchanged and contributes no new
  reachable state, so the model uses unbounded integers.
* `Mapping<HouseId, House>` is modelled as `Int → Option House`.
* The host adapter (`env().caller()`, `env().transferred_value()`) is modelled
  by passing the caller and the transferred value as explicit arguments.
* The psp34 token facet (`psp34: psp34::Data`) is opaque host-library data
  that none of the modelled messages reads or writes; it is omitted.
-/

/-- `zero_address()` from the source: the all-zero account. -/
def zero_address : Nat := 0

/-- The `HouseError` enum from the source, in declaration order. -/
inductive HouseError where
  | HouseNotFound
  | CantBidFurther
  | StillBidding
  | CantBidTwice
  | ValueTooSmall
  | BiddingLimitNotFulfill
  | LowBidPriceThanPreviouse
deriving DecidableEq, Repr

/-- One line of a house's bid ledger (`struct Bidder`). -/
structure Bidder where
  bidder_id : Int
  bidder_account : Nat
  bidder_amount : Nat
deriving DecidableEq, Repr

/-- `impl Default for Bidder`. -/
def Bidder.default : Bidder := ⟨0, zero_address, 0⟩

/-- One asset under auction (`struct House`). -/
structure House where
  house_id : Int
  house_owner : Nat
  house_title : String
  house_description : String
  rooms : Int
  special_features : List String
  initial_price : Nat
  bidder : List Bidder
  max_bid_price : Nat
  winner : Nat
deriving DecidableEq, Repr

/-- Contract storage (`struct HouseBidding`), minus the opaque psp34 facet. -/
structure HouseBidding where
  owner : Nat
  house_id : Int
  bidder_id : Int
  house : Int → Option House

/-- `Mapping::insert`: point update of the storage mapping. -/
def mapInsert (m : Int → Option House) (k : Int) (v : House) :
    Int → Option House :=
  fun q => if q = k then some v else m q

/-- `impl Default for HouseBidding`: zero owner, zero counters, empty map. -/
def HouseBidding.default : HouseBidding := ⟨zero_address, 0, 0, fun _ => none⟩

namespace HouseBidding

/-- The constructor `new()`.  The source returns `Self::default()`, so the
host caller is ignored and the stored owner stays the zero address. -/
def new (caller : Nat) : HouseBidding := HouseBidding.default

/-- `next_house_id`: returns the current counter, then increments it. -/
def next_house_id (s : HouseBidding) : Int × HouseBidding :=
  (s.house_id, { s with house_id := s.house_id + 1 })

/-- `next_bidder_id`: returns the current counter, then increments it. -/
def next_bidder_id (s : HouseBidding) : Int × HouseBidding :=
  (s.bidder_id, { s with bidder_id := s.bidder_id + 1 })

/-- `mint_house`: allocate a fresh id and persist a new house. -/
def mint_house (s : HouseBidding) (caller : Nat)
    (house_title house_description : String) (rooms : Int)
    (initial_price : Nat) (special_features : List String) :
    Except HouseError Unit × HouseBidding :=
  let house_owner := caller
  let p := next_house_id s
  let house_id := p.1
  let s1 := p.2
  let house : House :=
    { house_id := house_id, house_owner := house_owner,
      house_title := house_title, house_description := house_description,
      rooms := rooms, special_features := special_features,
      initial_price := initial_price, bidder := [], max_bid_price := 0,
      winner := zero_address }
  (Except.ok (), { s1 with house := mapInsert s1.house house_id house })

/-- The `for bid in house.bidder.clone()` loop of `bid`: the `ensure!`
monotonicity check, then the duplicate-account check, per entry in insertion
order; `none` means the scan passed. -/
def checkBidders (bidder_amount : Nat) (caller : Nat) :
    List Bidder → Option HouseError
  | [] => none
  | b :: rest =>
    if bidder_amount > b.bidder_amount then
      if b.bidder_account = caller then some HouseError.CantBidTwice
      else checkBidders bidder_amount caller rest
    else some HouseError.LowBidPriceThanPreviouse

/-- The payable message `bid`.  Note that `next_bidder_id` is called (and the
counter incremented) before any validation, exactly as in the source. -/
def bid (s : HouseBidding) (caller : Nat) (transferred_value : Nat)
    (house_id : Int) : Except HouseError Unit × HouseBidding :=
  let p := next_bidder_id s
  let bidder_id := p.1
  let s1 := p.2
  let bidder_amount := transferred_value
  match s1.house house_id with
  | none => (Except.error HouseError.HouseNotFound, s1)
  | some house =>
    if bidder_amount ≥ house.initial_price then
      match checkBidders bidder_amount caller house.bidder with
      | some e => (Except.error e, s1)
      | none =>
        let bidder : Bidder := ⟨bidder_id, caller, bidder_amount⟩
        if house.bidder.length < 5 then
          let house2 : House := { house with bidder := house.bidder ++ [bidder] }
          (Except.ok (), { s1 with house := mapInsert s1.house house_id house2 })
        else (Except.error HouseError.CantBidFurther, s1)
    else (Except.error HouseError.ValueTooSmall, s1)

/-- The `for bid in house.bidder.clone()` loop of `get_winner`: it iterates
the original ledger while mutating `house` and re-inserting it into storage
on every iteration that strictly raises the running maximum, and returns
`StillBidding` from inside the loop otherwise. -/
def winnerLoop (house_id : Int) :
    List Bidder → House → HouseBidding → Except HouseError Unit × HouseBidding
  | [], _house, s => (Except.ok (), s)
  | b :: rest, house, s =>
    if b.bidder_amount > house.max_bid_price then
      let house2 := { house with max_bid_price := b.bidder_amount,
                                 winner := b.bidder_account }
      let s2 := { s with house := mapInsert s.house house_id house2 }
      winnerLoop house_id rest house2 s2
    else (Except.error HouseError.StillBidding, s)

/-- The message `get_winner`. -/
def get_winner (s : HouseBidding) (house_id : Int) :
    Except HouseError Unit × HouseBidding :=
  match s.house house_id with
  | none => (Except.error HouseError.HouseNotFound, s)
  | some house =>
    if house.bidder.length = 5 then winnerLoop house_id house.bidder house s
    else (Except.error HouseError.BiddingLimitNotFulfill, s)

/-- The message `get_house`: iterate ids `0..house_id`, collecting present
entries. -/
def get_house (s : HouseBidding) : List House :=
  (List.range s.house_id.toNat).filterMap fun (n : Nat) => s.house (n : Int)

end HouseBidding

/-- One external invocation, with the host-supplied caller and value. -/
inductive Op where
  | mint (caller : Nat) (house_title house_description : String)
      (rooms : Int) (initial_price : Nat) (special_features : List String)
  | bid (caller : Nat) (transferred_value : Nat) (house_id : Int)
  | getWinner (house_id : Int)
  | getHouse

/-- State transition of one invocation.  An error return is a normal return
on the host (not a trap), so the state produced by the message is kept. -/
def stepOp (s : HouseBidding) : Op → HouseBidding
  | Op.mint c t d r ip sf => (HouseBidding.mint_house s c t d r ip sf).2
  | Op.bid c v hid => (HouseBidding.bid s c v hid).2
  | Op.getWinner hid => (HouseBidding.get_winner s hid).2
  | Op.getHouse => s

/-- States reachable from the constructor by any sequence of invocations. -/
inductive Reachable : HouseBidding → Prop where
  | init (caller : Nat) : Reachable (HouseBidding.new caller)
  | step (s : HouseBidding) (op : Op) : Reachable s → Reachable (stepOp s op)

/-- The amounts of a house's ledger, in insertion order. -/
def amountsOf (h : House) : List Nat := h.bidder.map Bidder.bidder_amount

/-- The accounts of a house's ledger, in insertion order. -/
def accountsOf (h : House) : List Nat := h.bidder.map Bidder.bidder_account

/-- Amount of the last ledger entry (0 when the ledger is empty). -/
def lastAmount (h : House) : Nat :=
  ((h.bidder.getLast?).map Bidder.bidder_amount).getD 0

/-- Account of the last ledger entry (zero address when the ledger is empty). -/
def lastAccount (h : House) : Nat :=
  ((h.bidder.getLast?).map Bidder.bidder_account).getD zero_address

/-- The house record written by a completed `get_winner` scan: `max_bid_price`
and `winner` taken from ledger entry `lb`. -/
def winnerHouse (house : House) (lb : Bidder) : House :=
  { house with max_bid_price := lb.bidder_amount, winner := lb.bidder_account }

/-- Per-house invariant maintained by the contract. -/
def HouseOk (h : House) : Prop :=
  h.bidder.length ≤ 5 ∧
  List.Chain' (· < ·) (amountsOf h) ∧
  (∀ b ∈ h.bidder, h.initial_price ≤ b.bidder_amount) ∧
  (accountsOf h).Nodup ∧
  (h.winner = zero_address ∧ h.max_bid_price = 0 ∨
    h.bidder.length = 5 ∧ h.max_bid_price = lastAmount h ∧
      h.winner = lastAccount h)

/-- Global state invariant: nonnegative house counter, dense key domain
`{0, …, house_id − 1}`, and every stored house well-formed and keyed by its
own id. -/
def StateInv (s : HouseBidding) : Prop :=
  0 ≤ s.house_id ∧
  (∀ k : Int, (s.house k).isSome ↔ 0 ≤ k ∧ k < s.house_id) ∧
  (∀ k h, s.house k = some h → h.house_id = k ∧ HouseOk h)

/-- Total number of ledger entries stored across all houses. -/
def totalBidders (s : HouseBidding) : Nat :=
  ((List.range s.house_id.toNat).map fun (n : Nat) =>
    ((s.house (n : Int)).map fun h => h.bidder.length).getD 0).sum

/-- Modelled from the spec: the admission rules of `bid` (§4.3), evaluated in
order — house existence, value floor, the per-entry scan, then the cap — with
the spec's per-entry rule order (monotonicity, then distinct account).
This is the spec-side verdict, used to state that the code's `bid` returns
the error of the first failing rule. -/
def specRuleScan (value : Nat) (caller : Nat) :
    List Bidder → Option HouseError
  | [] => none
  | b :: rest =>
    if value > b.bidder_amount then
      if b.bidder_account ≠ caller then specRuleScan value caller rest
      else some HouseError.CantBidTwice
    else some HouseError.LowBidPriceThanPreviouse

/-- Modelled from the spec: the full ordered admission verdict of `bid`. -/
def bidAdmissionSpec (s : HouseBidding) (caller : Nat) (value : Nat)
    (house_id : Int) : Except HouseError Unit :=
  match s.house house_id with
  | none => Except.error HouseError.HouseNotFound
  | some house =>
    if value ≥ house.initial_price then
      match specRuleScan value caller house.bidder with
      | some e => Except.error e
      | none =>
        if house.bidder.length < 5 then Except.ok ()
        else Except.error HouseError.CantBidFurther
    else Except.error HouseError.ValueTooSmall

/-! Concrete example traces, used by witnesses and counterexamples. -/

/-- Fresh contract deployed by account 1. -/
def exS0 : HouseBidding := HouseBidding.new 1

/-- Account 1 mints house 0 with floor 100. -/
def exS1 : HouseBidding := stepOp exS0 (Op.mint 1 "" "" 3 100 [])

/-- Account 2 bids 100 on house 0. -/
def exS2 : HouseBidding := stepOp exS1 (Op.bid 2 100 0)

/-- Account 3 bids 150 on house 0. -/
def exS3 : HouseBidding := stepOp exS2 (Op.bid 3 150 0)

/-- Account 4 bids 200 on house 0. -/
def exS4 : HouseBidding := stepOp exS3 (Op.bid 4 200 0)

/-- Account 5 bids 250 on house 0. -/
def exS5 : HouseBidding := stepOp exS4 (Op.bid 5 250 0)

/-- Account 6 bids 300 on house 0; the ledger of house 0 is now full. -/
def exS6 : HouseBidding := stepOp exS5 (Op.bid 6 300 0)

/-- `get_winner` resolves house 0. -/
def exS7 : HouseBidding := stepOp exS6 (Op.getWinner 0)

/-- House 0 as stored in `exS2`. -/
def exHouse2 : House := ⟨0, 1, "", "", 3, [], 100, [⟨0, 2, 100⟩], 0, 0⟩

/-- House 0 as stored in `exS6`. -/
def exHouse6 : House :=
  ⟨0, 1, "", "", 3, [], 100,
    [⟨0, 2, 100⟩, ⟨1, 3, 150⟩, ⟨2, 4, 200⟩, ⟨3, 5, 250⟩, ⟨4, 6, 300⟩], 0, 0⟩

/-- House 0 as stored in `exS7`, after the successful `get_winner`. -/
def exHouse7 : House :=
  ⟨0, 1, "", "", 3, [], 100,
    [⟨0, 2, 100⟩, ⟨1, 3, 150⟩, ⟨2, 4, 200⟩, ⟨3, 5, 250⟩, ⟨4, 6, 300⟩], 300, 6⟩

/-- A second trace: house 0 minted with floor 0, then five strictly
increasing bids 0, 1, 2, 3, 4 — all admitted by `bid`. -/
def cxS1 : HouseBidding := stepOp (HouseBidding.new 1) (Op.mint 1 "" "" 1 0 [])

/-- Bid of 0 by account 2 (admitted: the floor is 0). -/
def cxS2 : HouseBidding := stepOp cxS1 (Op.bid 2 0 0)

/-- Bid of 1 by account 3. -/
def cxS3 : HouseBidding := stepOp cxS2 (Op.bid 3 1 0)

/-- Bid of 2 by account 4. -/
def cxS4 : HouseBidding := stepOp cxS3 (Op.bid 4 2 0)

/-- Bid of 3 by account 5. -/
def cxS5 : HouseBidding := stepOp cxS4 (Op.bid 5 3 0)

/-- Bid of 4 by account 6; the ledger of house 0 is now full. -/
def cxS6 : HouseBidding := stepOp cxS5 (Op.bid 6 4 0)

/-- House 0 as stored in `cxS6`: full, strictly monotone, first amount 0. -/
def cxHouse : House :=
  ⟨0, 1, "", "", 1, [], 0,
    [⟨0, 2, 0⟩, ⟨1, 3, 1⟩, ⟨2, 4, 2⟩, ⟨3, 5, 3⟩, ⟨4, 6, 4⟩], 0, 0⟩

/-! Basic lemmas about the storage mapping. -/

theorem mapInsert_same (m : Int → Option House) (k : Int) (v : House) :
    mapInsert m k v k = some v := by
  simp [mapInsert]

theorem mapInsert_other (m : Int → Option House) (k q : Int) (v : House)
    (h : q ≠ k) : mapInsert m k v q = m q := by
  simp [mapInsert, h]

theorem mapInsert_mapInsert_same (m : Int → Option House) (k : Int)
    (v w : House) : mapInsert (mapInsert m k v) k w = mapInsert m k w := by
  funext q
  by_cases hq : q = k <;> simp [mapInsert, hq]

theorem isSome_mapInsert (m : Int → Option House) (k q : Int) (v : House) :
    (mapInsert m k v q).isSome ↔ q = k ∨ (m q).isSome := by
  by_cases hq : q = k <;> simp [mapInsert, hq]

/-! Branch lemmas for the messages. -/

theorem mint_house_eq (s : HouseBidding) (c : Nat) (t d : String) (r : Int)
    (ip : Nat) (sf : List String) :
    HouseBidding.mint_house s c t d r ip sf =
      (Except.ok (),
        { s with house_id := s.house_id + 1,
                 house := mapInsert s.house s.house_id
                   ⟨s.house_id, c, t, d, r, sf, ip, [], 0, zero_address⟩ }) :=
  rfl

theorem bid_none_eq (s : HouseBidding) (c : Nat) (v : Nat)
    (hid : Int) (hh : s.house hid = none) :
    HouseBidding.bid s c v hid =
      (Except.error HouseError.HouseNotFound,
        { s with bidder_id := s.bidder_id + 1 }) := by
  simp [HouseBidding.bid, HouseBidding.next_bidder_id, hh]

theorem bid_low_eq (s : HouseBidding) (c : Nat) (v : Nat)
    (hid : Int) (house : House) (hh : s.house hid = some house)
    (hv : ¬ house.initial_price ≤ v) :
    HouseBidding.bid s c v hid =
      (Except.error HouseError.ValueTooSmall,
        { s with bidder_id := s.bidder_id + 1 }) := by
  simp [HouseBidding.bid, HouseBidding.next_bidder_id, hh, hv]

theorem bid_scan_eq (s : HouseBidding) (c : Nat) (v : Nat)
    (hid : Int) (house : House) (e : HouseError)
    (hh : s.house hid = some house) (hv : house.initial_price ≤ v)
    (hc : HouseBidding.checkBidders v c house.bidder = some e) :
    HouseBidding.bid s c v hid =
      (Except.error e, { s with bidder_id := s.bidder_id + 1 }) := by
  simp [HouseBidding.bid, HouseBidding.next_bidder_id, hh, hv, hc]

theorem bid_cap_eq (s : HouseBidding) (c : Nat) (v : Nat)
    (hid : Int) (house : House) (hh : s.house hid = some house)
    (hv : house.initial_price ≤ v) (hc : HouseBidding.checkBidders v c house.bidder = none)
    (hl : ¬ house.bidder.length < 5) :
    HouseBidding.bid s c v hid =
      (Except.error HouseError.CantBidFurther,
        { s with bidder_id := s.bidder_id + 1 }) := by
  simp [HouseBidding.bid, HouseBidding.next_bidder_id, hh, hv, hc, hl]

theorem bid_ok_eq (s : HouseBidding) (c : Nat) (v : Nat)
    (hid : Int) (house : House) (hh : s.house hid = some house)
    (hv : house.initial_price ≤ v) (hc : HouseBidding.checkBidders v c house.bidder = none)
    (hl : house.bidder.length < 5) :
    HouseBidding.bid s c v hid =
      (Except.ok (),
        { s with bidder_id := s.bidder_id + 1,
                 house := mapInsert s.house hid
                   ({ house with
                      bidder := house.bidder ++ [⟨s.bidder_id, c, v⟩] }) }) := by
  simp [HouseBidding.bid, HouseBidding.next_bidder_id, hh, hv, hc, hl]

theorem get_winner_none_eq (s : HouseBidding) (hid : Int)
    (hh : s.house hid = none) :
    HouseBidding.get_winner s hid = (Except.error HouseError.HouseNotFound, s) := by
  simp [HouseBidding.get_winner, hh]

theorem get_winner_notfull_eq (s : HouseBidding) (hid : Int) (house : House)
    (hh : s.house hid = some house) (hl : house.bidder.length ≠ 5) :
    HouseBidding.get_winner s hid =
      (Except.error HouseError.BiddingLimitNotFulfill, s) := by
  simp [HouseBidding.get_winner, hh, hl]

theorem get_winner_full_eq (s : HouseBidding) (hid : Int) (house : House)
    (hh : s.house hid = some house) (hl : house.bidder.length = 5) :
    HouseBidding.get_winner s hid =
      HouseBidding.winnerLoop hid house.bidder house s := by
  simp [HouseBidding.get_winner, hh, hl]

/-! Lemmas about the bid-admission scan. -/

theorem HouseBidding.checkBidders_none_forall (v : Nat) (c : Nat) :
    ∀ bs : List Bidder, HouseBidding.checkBidders v c bs = none →
      ∀ b ∈ bs, b.bidder_amount < v ∧ b.bidder_account ≠ c := by
  intro bs
  induction bs with
  | nil => intro _ b hb; cases hb
  | cons a rest ih =>
    intro hnone b hb
    by_cases hgt : v > a.bidder_amount
    · by_cases hacc : a.bidder_account = c
      · simp [HouseBidding.checkBidders, hgt, hacc] at hnone
      · rcases List.mem_cons.mp hb with rfl | hb2
        · exact ⟨hgt, hacc⟩
        · simp only [HouseBidding.checkBidders, if_pos hgt, if_neg hacc] at hnone
          exact ih hnone b hb2
    · simp [HouseBidding.checkBidders, hgt] at hnone

theorem HouseBidding.checkBidders_eq_specRuleScan (v : Nat) (c : Nat) :
    ∀ bs : List Bidder, HouseBidding.checkBidders v c bs = specRuleScan v c bs := by
  intro bs
  induction bs with
  | nil => rfl
  | cons a rest ih =>
    by_cases hgt : v > a.bidder_amount
    · by_cases hacc : a.bidder_account = c
      · simp [HouseBidding.checkBidders, specRuleScan, hgt, hacc]
      · simp [HouseBidding.checkBidders, specRuleScan, hgt, hacc, ih]
    · simp [HouseBidding.checkBidders, specRuleScan, hgt]

theorem HouseBidding.checkBidders_lowbid (v : Nat) (c : Nat) :
    ∀ bs : List Bidder, (bs.map Bidder.bidder_account).Nodup →
      ∀ b ∈ bs, b.bidder_account = c → v ≤ b.bidder_amount →
        HouseBidding.checkBidders v c bs = some HouseError.LowBidPriceThanPreviouse := by
  intro bs
  induction bs with
  | nil => intro _ b hb; cases hb
  | cons a rest ih =>
    intro hnd b hb hacc hle
    by_cases hgt : v > a.bidder_amount
    · by_cases haeq : a.bidder_account = c
      · exfalso
        rcases List.mem_cons.mp hb with rfl | hb2
        · exact absurd (lt_of_le_of_lt hle hgt) (lt_irrefl v)
        · rw [List.map_cons, List.nodup_cons] at hnd
          exact hnd.1 (List.mem_map.mpr ⟨b, hb2, hacc.trans haeq.symm⟩)
      · have hb2 : b ∈ rest := by
          rcases List.mem_cons.mp hb with rfl | hb2
          · exact absurd hacc haeq
          · exact hb2
        rw [List.map_cons, List.nodup_cons] at hnd
        simp only [HouseBidding.checkBidders, if_pos hgt, if_neg haeq]
        exact ih hnd.2 b hb2 hacc hle
    · simp [HouseBidding.checkBidders, hgt]

/-! List helpers. -/

theorem chain'_lt_append_singleton {l : List Nat} {x : Nat}
    (hl : List.Chain' (· < ·) l) (hx : ∀ a ∈ l, a < x) :
    List.Chain' (· < ·) (l ++ [x]) := by
  refine List.Chain'.append hl (List.chain'_singleton x) ?_
  intro a ha y hy
  have ha2 : a ∈ l := by
    cases l with
    | nil => simp at ha
    | cons b t => exact List.mem_of_mem_getLast? ha
  simp only [List.head?_cons, Option.mem_def, Option.some.injEq] at hy
  subst hy
  exact hx a ha2

theorem nodup_append_singleton {α : Type} {l : List α} {x : α}
    (hl : l.Nodup) (hx : x ∉ l) : (l ++ [x]).Nodup := by
  rw [List.nodup_append]
  refine ⟨hl, List.nodup_singleton x, ?_⟩
  intro a ha hb
  simp only [List.mem_singleton] at hb
  subst hb
  exact hx ha

theorem exists_five_of_length_eq {α : Type} {l : List α} (h : l.length = 5) :
    ∃ a1 a2 a3 a4 a5, l = [a1, a2, a3, a4, a5] := by
  rcases l with _ | ⟨a1, l⟩
  · simp at h
  rcases l with _ | ⟨a2, l⟩
  · simp at h
  rcases l with _ | ⟨a3, l⟩
  · simp at h
  rcases l with _ | ⟨a4, l⟩
  · simp at h
  rcases l with _ | ⟨a5, l⟩
  · simp at h
  rcases l with _ | ⟨a6, l⟩
  · exact ⟨a1, a2, a3, a4, a5, rfl⟩
  · simp at h

/-! Lemmas about the `get_winner` scan loop. -/

theorem winnerLoop_cons (hid : Int) (b : Bidder) (bs : List Bidder)
    (house : House) (s : HouseBidding) :
    HouseBidding.winnerLoop hid (b :: bs) house s =
      if house.max_bid_price < b.bidder_amount then
        HouseBidding.winnerLoop hid bs (winnerHouse house b)
          { s with house := mapInsert s.house hid (winnerHouse house b) }
      else (Except.error HouseError.StillBidding, s) := rfl

theorem winnerLoop_stuck (hid : Int) (b : Bidder) (bs : List Bidder)
    (house : House) (s : HouseBidding)
    (hle : b.bidder_amount ≤ house.max_bid_price) :
    HouseBidding.winnerLoop hid (b :: bs) house s =
      (Except.error HouseError.StillBidding, s) := by
  have hno : ¬ house.max_bid_price < b.bidder_amount := Nat.not_lt.mpr hle
  simp [HouseBidding.winnerLoop, hno]

theorem winnerLoop_ok_of_chain (hid : Int) :
    ∀ (bs : List Bidder) (house : House) (s : HouseBidding) (lb : Bidder),
      bs.getLast? = some lb →
      List.Chain' (· < ·) (house.max_bid_price :: bs.map Bidder.bidder_amount) →
      HouseBidding.winnerLoop hid bs house s =
        (Except.ok (), { s with house := mapInsert s.house hid (winnerHouse house lb) }) := by
  intro bs
  induction bs with
  | nil => intro house s lb hlb; cases hlb
  | cons b rest ih =>
    intro house s lb hlb hch
    rw [List.map_cons, List.chain'_cons'] at hch
    have hgt : house.max_bid_price < b.bidder_amount := by
      exact hch.1 b.bidder_amount rfl
    cases rest with
    | nil =>
      simp only [List.getLast?_singleton, Option.some.injEq] at hlb
      subst hlb
      simp [HouseBidding.winnerLoop, hgt, winnerHouse]
    | cons b2 rest2 =>
      rw [List.getLast?_cons_cons] at hlb
      rw [winnerLoop_cons, if_pos hgt]
      rw [ih (winnerHouse house b)
        ({ s with house := mapInsert s.house hid (winnerHouse house b) }) lb hlb
        (by simpa [winnerHouse] using hch.2)]
      show (Except.ok (), { s with house := mapInsert (mapInsert s.house hid (winnerHouse house b)) hid (winnerHouse (winnerHouse house b) lb) }) = (Except.ok (), { s with house := mapInsert s.house hid (winnerHouse house lb) })
      rw [mapInsert_mapInsert_same]
      exact rfl

theorem winnerLoop_ok_chain (hid : Int) :
    ∀ (bs : List Bidder) (house : House) (s : HouseBidding),
      (HouseBidding.winnerLoop hid bs house s).1 = Except.ok () →
      List.Chain' (· < ·) (house.max_bid_price :: bs.map Bidder.bidder_amount) := by
  intro bs
  induction bs with
  | nil => intro house s _; exact List.chain'_singleton _
  | cons b rest ih =>
    intro house s hok
    by_cases hgt : house.max_bid_price < b.bidder_amount
    · simp only [HouseBidding.winnerLoop, if_pos hgt] at hok
      have := ih _ _ hok
      rw [List.map_cons, List.chain'_cons']
      constructor
      · intro y hy
        simp only [List.head?_cons, Option.mem_def, Option.some.injEq] at hy
        subst hy
        exact hgt
      · simpa using this
    · simp [HouseBidding.winnerLoop, hgt] at hok

theorem winnerLoop_ok_eq (hid : Int) (bs : List Bidder) (house : House)
    (s : HouseBidding) (lb : Bidder) (hlb : bs.getLast? = some lb)
    (hok : (HouseBidding.winnerLoop hid bs house s).1 = Except.ok ()) :
    HouseBidding.winnerLoop hid bs house s =
      (Except.ok (), { s with house := mapInsert s.house hid (winnerHouse house lb) }) :=
  winnerLoop_ok_of_chain hid bs house s lb hlb
    (winnerLoop_ok_chain hid bs house s hok)

/-- Complete characterisation of a successful `get_winner` call. -/
theorem get_winner_ok_elim (s : HouseBidding) (hid : Int)
    (s' : HouseBidding)
    (h : HouseBidding.get_winner s hid = (Except.ok (), s')) :
    ∃ house lb, s.house hid = some house ∧ house.bidder.length = 5 ∧
      house.bidder.getLast? = some lb ∧
      List.Chain' (· < ·) (house.max_bid_price :: amountsOf house) ∧
      s' = { s with house := mapInsert s.house hid (winnerHouse house lb) } := by
  cases hh : s.house hid with
  | none =>
    rw [get_winner_none_eq s hid hh] at h
    simp at h
  | some house =>
    by_cases hl : house.bidder.length = 5
    · rw [get_winner_full_eq s hid house hh hl] at h
      have hne : house.bidder ≠ [] := by
        intro hnil
        rw [hnil] at hl
        simp at hl
      obtain ⟨lb, hlb⟩ :=
        Option.isSome_iff_exists.mp (List.getLast?_isSome.mpr hne)
      have hok : (HouseBidding.winnerLoop hid house.bidder house s).1 =
          Except.ok () := by
        rw [h]
      have heq := winnerLoop_ok_eq hid house.bidder house s lb hlb hok
      refine ⟨house, lb, rfl, hl, hlb, ?_, ?_⟩
      · exact winnerLoop_ok_chain hid house.bidder house s hok
      · have h2 := heq.symm.trans h
        exact ((Prod.ext_iff.mp h2).2).symm
    · rw [get_winner_notfull_eq s hid house hh hl] at h
      simp at h

/-! Preservation of the global state invariant. -/

theorem stateInv_of_parts (s : HouseBidding) (hinv : StateInv s) (k0 : Int)
    (h' : House) (bidder_id' : Int) (hex : (s.house k0).isSome)
    (hid' : h'.house_id = k0) (hok' : HouseOk h') :
    StateInv { s with bidder_id := bidder_id',
                      house := mapInsert s.house k0 h' } := by
  obtain ⟨h0, hdom, hok⟩ := hinv
  refine ⟨h0, ?_, ?_⟩
  · intro k
    show (mapInsert s.house k0 h' k).isSome ↔ 0 ≤ k ∧ k < s.house_id
    rw [isSome_mapInsert]
    constructor
    · rintro (rfl | hs)
      · exact (hdom k).mp hex
      · exact (hdom k).mp hs
    · intro hb
      exact Or.inr ((hdom k).mpr hb)
  · intro k h2 hk2
    have hk2' : mapInsert s.house k0 h' k = some h2 := hk2
    by_cases hk : k = k0
    · subst hk
      rw [mapInsert_same] at hk2'
      cases hk2'
      exact ⟨hid', hok'⟩
    · rw [mapInsert_other _ _ _ _ hk] at hk2'
      exact hok k h2 hk2'

theorem houseOk_fresh (id : Int) (c : Nat) (t d : String) (r : Int)
    (ip : Nat) (sf : List String) :
    HouseOk ⟨id, c, t, d, r, sf, ip, [], 0, zero_address⟩ := by
  refine ⟨by simp, ?_, ?_, ?_, Or.inl ⟨rfl, rfl⟩⟩
  · show List.Chain' (· < ·) ([] : List Nat)
    exact List.chain'_nil
  · intro b hb
    cases hb
  · show ([] : List Nat).Nodup
    exact List.nodup_nil

theorem stateInv_mint (s : HouseBidding) (c : Nat) (t d : String)
    (r : Int) (ip : Nat) (sf : List String) (hinv : StateInv s) :
    StateInv (HouseBidding.mint_house s c t d r ip sf).2 := by
  obtain ⟨h0, hdom, hok⟩ := hinv
  show StateInv { s with house_id := s.house_id + 1,
                         house := mapInsert s.house s.house_id
                           ⟨s.house_id, c, t, d, r, sf, ip, [], 0, zero_address⟩ }
  refine ⟨?_, ?_, ?_⟩
  · show (0 : Int) ≤ s.house_id + 1
    omega
  · intro k
    show (mapInsert s.house s.house_id _ k).isSome ↔ 0 ≤ k ∧ k < s.house_id + 1
    rw [isSome_mapInsert]
    constructor
    · rintro (rfl | hs)
      · omega
      · have := (hdom k).mp hs
        omega
    · intro hb
      by_cases hk : k = s.house_id
      · exact Or.inl hk
      · refine Or.inr ((hdom k).mpr ?_)
        omega
  · intro k h2 hk2
    have hk2' : mapInsert s.house s.house_id
        ⟨s.house_id, c, t, d, r, sf, ip, [], 0, zero_address⟩ k = some h2 := hk2
    by_cases hk : k = s.house_id
    · subst hk
      rw [mapInsert_same] at hk2'
      cases hk2'
      exact ⟨rfl, houseOk_fresh s.house_id c t d r ip sf⟩
    · rw [mapInsert_other _ _ _ _ hk] at hk2'
      exact hok k h2 hk2'

theorem houseOk_append (house : House) (c : Nat) (v : Nat)
    (bid_id : Int) (hok : HouseOk house) (hv : house.initial_price ≤ v)
    (hall : ∀ b ∈ house.bidder, b.bidder_amount < v ∧ b.bidder_account ≠ c)
    (hl : house.bidder.length < 5) :
    HouseOk ({ house with bidder := house.bidder ++ [⟨bid_id, c, v⟩] }) := by
  obtain ⟨h1, h2, h3, h4, hd⟩ := hok
  refine ⟨?_, ?_, ?_, ?_, Or.inl ?_⟩
  · show (house.bidder ++ [(⟨bid_id, c, v⟩ : Bidder)]).length ≤ 5
    rw [List.length_append]
    simp only [List.length_singleton]
    omega
  · show List.Chain' (· < ·)
      ((house.bidder ++ [(⟨bid_id, c, v⟩ : Bidder)]).map Bidder.bidder_amount)
    rw [List.map_append]
    refine chain'_lt_append_singleton h2 ?_
    intro a ha
    obtain ⟨b, hb, rfl⟩ := List.mem_map.mp ha
    exact (hall b hb).1
  · intro b hb
    show house.initial_price ≤ b.bidder_amount
    rcases List.mem_append.mp hb with hb2 | hb2
    · exact h3 b hb2
    · rw [List.mem_singleton] at hb2
      subst hb2
      exact hv
  · show ((house.bidder ++ [(⟨bid_id, c, v⟩ : Bidder)]).map Bidder.bidder_account).Nodup
    rw [List.map_append]
    refine nodup_append_singleton h4 ?_
    intro hc
    obtain ⟨b, hb, hbc⟩ := List.mem_map.mp hc
    exact (hall b hb).2 hbc
  · rcases hd with ⟨hw, hm⟩ | ⟨hl5, _⟩
    · exact ⟨hw, hm⟩
    · omega

theorem stateInv_bid (s : HouseBidding) (c : Nat) (v : Nat)
    (hid : Int) (hinv : StateInv s) :
    StateInv (HouseBidding.bid s c v hid).2 := by
  cases hh : s.house hid with
  | none =>
    rw [bid_none_eq s c v hid hh]
    exact hinv
  | some house =>
    by_cases hv : house.initial_price ≤ v
    · cases hc : HouseBidding.checkBidders v c house.bidder with
      | some e =>
        rw [bid_scan_eq s c v hid house e hh hv hc]
        exact hinv
      | none =>
        by_cases hl : house.bidder.length < 5
        · rw [bid_ok_eq s c v hid house hh hv hc hl]
          refine stateInv_of_parts s hinv hid _ (s.bidder_id + 1) ?_ ?_ ?_
          · rw [hh]
            rfl
          · exact (hinv.2.2 hid house hh).1
          · exact houseOk_append house c v s.bidder_id (hinv.2.2 hid house hh).2
              hv (HouseBidding.checkBidders_none_forall v c house.bidder hc) hl
        · rw [bid_cap_eq s c v hid house hh hv hc hl]
          exact hinv
    · rw [bid_low_eq s c v hid house hh hv]
      exact hinv

theorem houseOk_winnerHouse (house : House) (b5 : Bidder) (hok : HouseOk house)
    (hlb : house.bidder.getLast? = some b5) (hlen : house.bidder.length = 5) :
    HouseOk (winnerHouse house b5) := by
  obtain ⟨h1, h2, h3, h4, _⟩ := hok
  refine ⟨h1, h2, h3, h4, Or.inr ⟨hlen, ?_, ?_⟩⟩
  · show b5.bidder_amount =
      ((house.bidder.getLast?).map Bidder.bidder_amount).getD 0
    rw [hlb]
    rfl
  · show b5.bidder_account =
      ((house.bidder.getLast?).map Bidder.bidder_account).getD zero_address
    rw [hlb]
    rfl

theorem stateInv_get_winner (s : HouseBidding) (hid : Int)
    (hinv : StateInv s) : StateInv (HouseBidding.get_winner s hid).2 := by
  cases hh : s.house hid with
  | none =>
    rw [get_winner_none_eq s hid hh]
    exact hinv
  | some house =>
    by_cases hl : house.bidder.length = 5
    · obtain ⟨hkid, hHok⟩ := hinv.2.2 hid house hh
      obtain ⟨hlen, hch, hip, hnd, hdisj⟩ := hHok
      rw [get_winner_full_eq s hid house hh hl]
      obtain ⟨b1, b2, b3, b4, b5, hbs⟩ := exists_five_of_length_eq hl
      have hlb : house.bidder.getLast? = some b5 := by
        rw [hbs]
        rfl
      have hch5 : b1.bidder_amount < b2.bidder_amount ∧
          b2.bidder_amount < b3.bidder_amount ∧
          b3.bidder_amount < b4.bidder_amount ∧
          b4.bidder_amount < b5.bidder_amount := by
        have := hch
        rw [show amountsOf house = [b1.bidder_amount, b2.bidder_amount,
          b3.bidder_amount, b4.bidder_amount, b5.bidder_amount] by
            rw [amountsOf, hbs]
            rfl] at this
        simp only [List.chain'_cons, List.chain'_singleton, and_true] at this
        exact this
      rcases hdisj with ⟨hw0, hm0⟩ | ⟨hl5, hmax, hwin⟩
      · by_cases h1 : house.max_bid_price < b1.bidder_amount
        · have hchain : List.Chain' (· < ·)
              (house.max_bid_price :: amountsOf house) := by
            rw [show amountsOf house = [b1.bidder_amount, b2.bidder_amount,
              b3.bidder_amount, b4.bidder_amount, b5.bidder_amount] by
                rw [amountsOf, hbs]
                rfl]
            simp only [List.chain'_cons, List.chain'_singleton, and_true]
            exact ⟨h1, hch5.1, hch5.2.1, hch5.2.2.1, hch5.2.2.2⟩
          rw [winnerLoop_ok_of_chain hid house.bidder house s b5 hlb hchain]
          exact stateInv_of_parts s hinv hid (winnerHouse house b5) s.bidder_id
            (by rw [hh]; rfl) hkid
            (houseOk_winnerHouse house b5 ⟨hlen, hch, hip, hnd,
              Or.inl ⟨hw0, hm0⟩⟩ hlb hl)
        · rw [hbs, winnerLoop_stuck hid b1 [b2, b3, b4, b5] house s
            (Nat.not_lt.mp h1)]
          exact hinv
      · have hb1le : b1.bidder_amount ≤ house.max_bid_price := by
          rw [hmax]
          rw [show lastAmount house = b5.bidder_amount by
            rw [lastAmount, hlb]
            rfl]
          omega
        rw [hbs, winnerLoop_stuck hid b1 [b2, b3, b4, b5] house s hb1le]
        exact hinv
    · rw [get_winner_notfull_eq s hid house hh hl]
      exact hinv

theorem stateInv_new (c : Nat) : StateInv (HouseBidding.new c) := by
  refine ⟨le_refl 0, ?_, ?_⟩
  · intro k
    show (none : Option House).isSome ↔ 0 ≤ k ∧ k < 0
    simp only [Option.isSome_none, Bool.false_eq_true, false_iff]
    omega
  · intro k h2 hk2
    cases hk2

theorem stateInv_reachable : ∀ s, Reachable s → StateInv s := by
  intro s hr
  induction hr with
  | init c => exact stateInv_new c
  | step s op hs ih =>
    cases op with
    | mint c t d r ip sf => exact stateInv_mint s c t d r ip sf ih
    | bid c v hid => exact stateInv_bid s c v hid ih
    | getWinner hid => exact stateInv_get_winner s hid ih
    | getHouse => exact ih

/-! Enumeration and counting lemmas. -/

theorem get_house_ids (s : HouseBidding) (hinv : StateInv s) :
    (HouseBidding.get_house s).map House.house_id =
      (List.range s.house_id.toNat).map (fun (n : Nat) => (n : Int)) ∧
    (HouseBidding.get_house s).length = s.house_id.toNat := by
  obtain ⟨h0, hdom, hok⟩ := hinv
  have key : ∀ l : List Nat, (∀ n ∈ l, (n : Int) < s.house_id) →
      ((l.filterMap fun (n : Nat) => s.house (n : Int)).map House.house_id =
        l.map (fun (n : Nat) => (n : Int))) := by
    intro l
    induction l with
    | nil => intro _; rfl
    | cons a t ih =>
      intro hlt
      have ha : ((a : Nat) : Int) < s.house_id := hlt a (List.mem_cons_self a t)
      have hsome : (s.house ((a : Nat) : Int)).isSome =
          true := (hdom _).mpr ⟨by omega, ha⟩
      obtain ⟨h, hh⟩ := Option.isSome_iff_exists.mp hsome
      rw [@List.filterMap_cons_some Nat House (fun (n : Nat) => s.house (n : Int))
          a t h hh, List.map_cons, List.map_cons,
        (hok ((a : Nat) : Int) h hh).1,
        ih (fun n hn => hlt n (List.mem_cons_of_mem a hn))]
  have hmain : (HouseBidding.get_house s).map House.house_id =
      (List.range s.house_id.toNat).map (fun (n : Nat) => (n : Int)) :=
    key (List.range s.house_id.toNat) (by
      intro n hn
      rw [List.mem_range] at hn
      omega)
  refine ⟨hmain, ?_⟩
  have hlen : ((HouseBidding.get_house s).map House.house_id).length =
      ((List.range s.house_id.toNat).map (fun (n : Nat) => (n : Int))).length := by
    rw [hmain]
  rw [List.length_map, List.length_map, List.length_range] at hlen
  exact hlen

theorem sum_le_five (l : List Nat) (h : ∀ x ∈ l, x ≤ 5) :
    l.sum ≤ 5 * l.length := by
  induction l with
  | nil => simp
  | cons a t ih =>
    rw [List.sum_cons, List.length_cons]
    have ht := ih (fun x hx => h x (List.mem_cons_of_mem a hx))
    have ha := h a (List.mem_cons_self a t)
    omega

theorem totalBidders_le (s : HouseBidding) (hinv : StateInv s) :
    totalBidders s ≤ 5 * s.house_id.toNat := by
  obtain ⟨h0, hdom, hok⟩ := hinv
  have hall : ∀ x ∈ (List.range s.house_id.toNat).map (fun (n : Nat) =>
      ((s.house (n : Int)).map fun h => h.bidder.length).getD 0), x ≤ 5 := by
    intro x hx
    obtain ⟨n, hn, rfl⟩ := List.mem_map.mp hx
    cases hcase : s.house (n : Int) with
    | none => simp [hcase]
    | some h =>
      have hle := (hok _ h hcase).2.1
      simp only [hcase, Option.map_some', Option.getD_some]
      exact hle
  have hs := sum_le_five _ hall
  rw [List.length_map, List.length_range] at hs
  exact hs

/-! Reachability of the example traces. -/

theorem reach_exS0 : Reachable exS0 := Reachable.init 1

theorem reach_exS1 : Reachable exS1 :=
  Reachable.step exS0 (Op.mint 1 "" "" 3 100 []) reach_exS0

theorem reach_exS2 : Reachable exS2 :=
  Reachable.step exS1 (Op.bid 2 100 0) reach_exS1

theorem reach_exS6 : Reachable exS6 :=
  Reachable.step exS5 (Op.bid 6 300 0)
    (Reachable.step exS4 (Op.bid 5 250 0)
      (Reachable.step exS3 (Op.bid 4 200 0)
        (Reachable.step exS2 (Op.bid 3 150 0) reach_exS2)))

theorem reach_exS7 : Reachable exS7 :=
  Reachable.step exS6 (Op.getWinner 0) reach_exS6

/-! Claim theorems. -/

/-- C1: after any sequence of calls (`new`, `mint_house`, `bid`, `get_winner`,
`get_house`), every stored house has at most 5 entries in its bidder ledger,
and the bidder amounts are strictly increasing in insertion order. -/
theorem reachable_ledger_cap_and_monotone :
    ∀ s, Reachable s → ∀ k h, s.house k = some h →
      h.bidder.length ≤ 5 ∧ List.Chain' (· < ·) (amountsOf h) := by
  intro s hr k h hk
  obtain ⟨_, _, hok⟩ := stateInv_reachable s hr
  exact ⟨(hok k h hk).2.1, (hok k h hk).2.2.1⟩

/-- Witness for C1 at the concrete reachable state `exS6`. -/
theorem reachable_ledger_cap_and_monotone_witness :
    exS6.house 0 = some exHouse6 ∧ exHouse6.bidder.length ≤ 5 ∧
      List.Chain' (· < ·) (amountsOf exHouse6) := by
  have h := reachable_ledger_cap_and_monotone exS6 reach_exS6 0 exHouse6
    (by decide)
  exact ⟨by decide, h.1, h.2⟩

/-- C5 counterexample: `bid` on a state with no houses returns
`HouseNotFound`, yet the bidder-identifier counter has changed: the state is
not exactly as it was before the call. -/
theorem bid_error_increments_counter_counterexample :
    (HouseBidding.bid (HouseBidding.new 1) 2 0 0).1 =
      Except.error HouseError.HouseNotFound ∧
    (HouseBidding.bid (HouseBidding.new 1) 2 0 0).2.bidder_id ≠
      (HouseBidding.new 1).bidder_id :=
  ⟨rfl, by decide⟩

/-- C5 (amended): on every error return of `bid`, the houses mapping and the
house-identifier counter are exactly as before, but the bidder-identifier
counter has been incremented by 1, because it is allocated before any
validation. -/
theorem bid_error_state_change (s : HouseBidding) (c v : Nat) (hid : Int)
    (e : HouseError) (herr : (HouseBidding.bid s c v hid).1 = Except.error e) :
    (HouseBidding.bid s c v hid).2 = { s with bidder_id := s.bidder_id + 1 } := by
  cases hh : s.house hid with
  | none =>
    rw [bid_none_eq s c v hid hh]
  | some house =>
    by_cases hv : house.initial_price ≤ v
    · cases hc : HouseBidding.checkBidders v c house.bidder with
      | some e2 =>
        rw [bid_scan_eq s c v hid house e2 hh hv hc]
      | none =>
        by_cases hl : house.bidder.length < 5
        · rw [bid_ok_eq s c v hid house hh hv hc hl] at herr
          simp at herr
        · rw [bid_cap_eq s c v hid house hh hv hc hl]
    · rw [bid_low_eq s c v hid house hh hv]

/-- Witness for the amended C5 at a concrete failing call. -/
theorem bid_error_state_change_witness :
    (HouseBidding.bid (HouseBidding.new 1) 9 5 3).1 =
      Except.error HouseError.HouseNotFound ∧
    (HouseBidding.bid (HouseBidding.new 1) 9 5 3).2 =
      { HouseBidding.new 1 with bidder_id := (HouseBidding.new 1).bidder_id + 1 } :=
  ⟨rfl, bid_error_state_change (HouseBidding.new 1) 9 5 3
    HouseError.HouseNotFound rfl⟩

/-- C6 counterexample: the constructor called by account 7 stores the zero
address as owner, not the caller. -/
theorem new_owner_not_caller_counterexample :
    (HouseBidding.new 7).house_id = 0 ∧ (HouseBidding.new 7).bidder_id = 0 ∧
      (HouseBidding.new 7).owner ≠ 7 := by
  decide

/-- C6 (amended): `new` initializes both identifier counters to 0 and sets
the contract owner to the zero sentinel account, ignoring the caller. -/
theorem new_initializes_counters_owner_zero :
    ∀ c : Nat, (HouseBidding.new c).house_id = 0 ∧
      (HouseBidding.new c).bidder_id = 0 ∧
      (HouseBidding.new c).owner = zero_address :=
  fun c => ⟨rfl, rfl, rfl⟩

/-- C7 counterexample: one failed `bid` call from the fresh state reaches a
state with `bidder_id = 1 > 5 * house_id = 0`. -/
theorem bidder_counter_bound_counterexample :
    Reachable (stepOp (HouseBidding.new 1) (Op.bid 2 0 0)) ∧
    ¬ ((stepOp (HouseBidding.new 1) (Op.bid 2 0 0)).bidder_id ≤
        5 * (stepOp (HouseBidding.new 1) (Op.bid 2 0 0)).house_id) :=
  ⟨Reachable.step (HouseBidding.new 1) (Op.bid 2 0 0) (Reachable.init 1),
    by decide⟩

/-- C7 (amended): the per-house cap bounds the stored ledgers, not the
counter: in every reachable state the total number of bidders stored across
all houses is at most `5 * next_house_id`; the counter itself also counts
failed `bid` calls. -/
theorem total_bidders_bound (s : HouseBidding) (hr : Reachable s) :
    totalBidders s ≤ 5 * s.house_id.toNat :=
  totalBidders_le s (stateInv_reachable s hr)

/-- Witness for the amended C7 at the concrete reachable state `exS2`. -/
theorem total_bidders_bound_witness :
    totalBidders exS2 ≤ 5 * exS2.house_id.toNat :=
  total_bidders_bound exS2 reach_exS2

/-- C8: for every input, `mint_house` returns `Ok`, increases the
house-identifier counter by exactly 1, and stores under the fresh identifier
a house owned by the caller with empty ledger, `max_bid_price = 0` and the
zero sentinel as winner. -/
theorem mint_house_total_and_fresh :
    ∀ (s : HouseBidding) (c : Nat) (t d : String) (r : Int) (ip : Nat)
      (sf : List String),
      (HouseBidding.mint_house s c t d r ip sf).1 = Except.ok () ∧
      (HouseBidding.mint_house s c t d r ip sf).2.house_id = s.house_id + 1 ∧
      (HouseBidding.mint_house s c t d r ip sf).2.house s.house_id =
        some ⟨s.house_id, c, t, d, r, sf, ip, [], 0, zero_address⟩ := by
  intro s c t d r ip sf
  refine ⟨rfl, rfl, ?_⟩
  show mapInsert s.house s.house_id
    ⟨s.house_id, c, t, d, r, sf, ip, [], 0, zero_address⟩ s.house_id = some _
  exact mapInsert_same _ _ _

/-- C9: in every reachable state, `get_house` returns exactly
`next_house_id` records, one per identifier `0, …, next_house_id − 1`, in
ascending order of `house_id`. -/
theorem get_house_enumerates_all (s : HouseBidding) (hr : Reachable s) :
    (HouseBidding.get_house s).length = s.house_id.toNat ∧
    (HouseBidding.get_house s).map House.house_id =
      (List.range s.house_id.toNat).map (fun (n : Nat) => (n : Int)) := by
  have h := get_house_ids s (stateInv_reachable s hr)
  exact ⟨h.2, h.1⟩

/-- Witness for C9 at the concrete reachable state `exS1`. -/
theorem get_house_enumerates_all_witness :
    (HouseBidding.get_house exS1).length = exS1.house_id.toNat ∧
    (HouseBidding.get_house exS1).map House.house_id =
      (List.range exS1.house_id.toNat).map (fun (n : Nat) => (n : Int)) :=
  get_house_enumerates_all exS1 reach_exS1

/-- C2 counterexample: account 2 already bid 100 on house 0 (whose floor is
100); re-bidding with 50, which is equal to or below its own prior bid,
returns `ValueTooSmall` (the floor check fires first), not
`LowBidPriceThanPreviouse`. -/
theorem rebid_below_floor_counterexample :
    exS2.house 0 = some exHouse2 ∧
    (⟨0, 2, 100⟩ : Bidder) ∈ exHouse2.bidder ∧
    (⟨0, 2, 100⟩ : Bidder).bidder_account = 2 ∧
    (50 : Nat) ≤ (⟨0, 2, 100⟩ : Bidder).bidder_amount ∧
    (HouseBidding.bid exS2 2 50 0).1 = Except.error HouseError.ValueTooSmall := by
  refine ⟨by decide, by decide, rfl, by decide, rfl⟩

/-- C2 (amended): `bid` evaluates the admission rules in the spec's order and
returns the error of the first failing rule; and a caller who already bid
and re-bids with a value that is at least the house's floor but equal to or
below their own prior bid receives `LowBidPriceThanPreviouse`, not
`CantBidTwice` (below the floor the earlier rule reports `ValueTooSmall`). -/
theorem bid_rule_order_and_rebid_low :
    (∀ (s : HouseBidding) (c v : Nat) (hid : Int),
      (HouseBidding.bid s c v hid).1 = bidAdmissionSpec s c v hid) ∧
    (∀ (s : HouseBidding) (c v : Nat) (hid : Int) (house : House) (b : Bidder),
      s.house hid = some house → (accountsOf house).Nodup →
      b ∈ house.bidder → b.bidder_account = c → v ≤ b.bidder_amount →
      house.initial_price ≤ v →
      (HouseBidding.bid s c v hid).1 =
        Except.error HouseError.LowBidPriceThanPreviouse) := by
  constructor
  · intro s c v hid
    cases hh : s.house hid with
    | none =>
      rw [bid_none_eq s c v hid hh]
      simp [bidAdmissionSpec, hh]
    | some house =>
      by_cases hv : house.initial_price ≤ v
      · cases hc : HouseBidding.checkBidders v c house.bidder with
        | some e =>
          have hc2 := (HouseBidding.checkBidders_eq_specRuleScan v c
            house.bidder).symm.trans hc
          rw [bid_scan_eq s c v hid house e hh hv hc]
          simp [bidAdmissionSpec, hh, hv, hc2]
        | none =>
          have hc2 := (HouseBidding.checkBidders_eq_specRuleScan v c
            house.bidder).symm.trans hc
          by_cases hl : house.bidder.length < 5
          · rw [bid_ok_eq s c v hid house hh hv hc hl]
            simp [bidAdmissionSpec, hh, hv, hc2, hl]
          · rw [bid_cap_eq s c v hid house hh hv hc hl]
            simp [bidAdmissionSpec, hh, hv, hc2, hl]
      · rw [bid_low_eq s c v hid house hh hv]
        simp [bidAdmissionSpec, hh, hv]
  · intro s c v hid house b hh hnd hb hacc hle hip
    have hc := HouseBidding.checkBidders_lowbid v c house.bidder hnd b hb hacc hle
    rw [bid_scan_eq s c v hid house _ hh hip hc]

/-- Witness for the amended C2: re-bid at exactly the prior own bid (and at
the floor) reports `LowBidPriceThanPreviouse`, and the refinement instance. -/
theorem bid_rule_order_and_rebid_low_witness :
    (HouseBidding.bid exS2 2 100 0).1 = bidAdmissionSpec exS2 2 100 0 ∧
    (HouseBidding.bid exS2 2 100 0).1 =
      Except.error HouseError.LowBidPriceThanPreviouse := by
  constructor
  · exact bid_rule_order_and_rebid_low.1 exS2 2 100 0
  · exact bid_rule_order_and_rebid_low.2 exS2 2 100 0 exHouse2 ⟨0, 2, 100⟩
      (by decide) (by decide) (by decide) rfl (by decide) (by decide)

/-- C3 counterexample: house 0 of `cxS6` has a full ledger with strictly
increasing amounts `[0, 1, 2, 3, 4]` (reachable with floor 0), yet
`get_winner` returns `StillBidding`, because the scan starts from
`max_bid_price = 0` and `0 > 0` fails on the first entry. -/
theorem full_monotone_still_bidding_counterexample :
    cxS6.house 0 = some cxHouse ∧ cxHouse.bidder.length = 5 ∧
    List.Chain' (· < ·) (amountsOf cxHouse) ∧
    (HouseBidding.get_winner cxS6 0).1 = Except.error HouseError.StillBidding := by
  refine ⟨by decide, by decide, ?_, rfl⟩
  rw [show amountsOf cxHouse = [0, 1, 2, 3, 4] from rfl]
  simp only [List.chain'_cons, List.chain'_singleton, and_true]
  omega

/-- C3 (amended): `get_winner` returns `Ok` on every house whose ledger is
full (5 entries) and whose amounts, prefixed with the stored
`max_bid_price`, are strictly increasing — i.e. strictly monotone amounts
whose first entry is strictly above the stored maximum (positive, for an
open house). -/
theorem get_winner_full_monotone_above_max_ok (s : HouseBidding) (hid : Int)
    (house : House) (hh : s.house hid = some house)
    (hlen : house.bidder.length = 5)
    (hch : List.Chain' (· < ·) (house.max_bid_price :: amountsOf house)) :
    (HouseBidding.get_winner s hid).1 = Except.ok () := by
  rw [get_winner_full_eq s hid house hh hlen]
  have hne : house.bidder ≠ [] := by
    intro h0
    rw [h0] at hlen
    simp at hlen
  obtain ⟨lb, hlb⟩ := Option.isSome_iff_exists.mp (List.getLast?_isSome.mpr hne)
  rw [winnerLoop_ok_of_chain hid house.bidder house s lb hlb hch]

/-- Witness for the amended C3 at the concrete full house of `exS6`. -/
theorem get_winner_full_monotone_above_max_ok_witness :
    (HouseBidding.get_winner exS6 0).1 = Except.ok () :=
  get_winner_full_monotone_above_max_ok exS6 0 exHouse6 (by decide) (by decide)
    (by
      rw [show exHouse6.max_bid_price :: amountsOf exHouse6 =
        [0, 100, 150, 200, 250, 300] from rfl]
      simp only [List.chain'_cons, List.chain'_singleton, and_true]
      omega)

/-- C4: whenever `get_winner` returns `Ok`, the persisted house has `winner`
equal to the last bidder's account and `max_bid_price` equal to the last
bidder's amount; and invariant I5 (a non-sentinel winner implies 5 bidders
and `max_bid_price` equal to the last amount) holds in every reachable
state. -/
theorem get_winner_ok_sets_last_and_I5 :
    (∀ (s : HouseBidding) (hid : Int) (s' : HouseBidding),
      HouseBidding.get_winner s hid = (Except.ok (), s') →
      ∃ h', s'.house hid = some h' ∧ h'.bidder.length = 5 ∧
        h'.max_bid_price = lastAmount h' ∧ h'.winner = lastAccount h') ∧
    (∀ s, Reachable s → ∀ k h, s.house k = some h → h.winner ≠ zero_address →
      h.bidder.length = 5 ∧ h.max_bid_price = lastAmount h) := by
  constructor
  · intro s hid s' h
    obtain ⟨house, lb, hh, hlen, hlb, hch, hs'⟩ := get_winner_ok_elim s hid s' h
    refine ⟨winnerHouse house lb, ?_, hlen, ?_, ?_⟩
    · rw [hs']
      show mapInsert s.house hid (winnerHouse house lb) hid = some _
      exact mapInsert_same _ _ _
    · show lb.bidder_amount =
        ((house.bidder.getLast?).map Bidder.bidder_amount).getD 0
      rw [hlb]
      rfl
    · show lb.bidder_account =
        ((house.bidder.getLast?).map Bidder.bidder_account).getD zero_address
      rw [hlb]
      rfl
  · intro s hr k h hk hw
    obtain ⟨_, _, hok⟩ := stateInv_reachable s hr
    obtain ⟨_, _, _, _, _, hd⟩ := hok k h hk
    rcases hd with ⟨hw0, _⟩ | ⟨hl5, hmax, _⟩
    · exact absurd hw0 hw
    · exact ⟨hl5, hmax⟩

/-- Witness for C4 at the resolved house of `exS7`. -/
theorem get_winner_ok_sets_last_and_I5_witness :
    exS7.house 0 = some exHouse7 ∧ exHouse7.bidder.length = 5 ∧
      exHouse7.max_bid_price = lastAmount exHouse7 ∧
      exHouse7.winner = lastAccount exHouse7 := by
  obtain ⟨h', hh', hlen, hmax, hwin⟩ :=
    get_winner_ok_sets_last_and_I5.1 exS6 0 exS7 rfl
  have hfix : h' = exHouse7 := by
    have hx : exS7.house 0 = some exHouse7 := by decide
    rw [hx] at hh'
    exact (Option.some.inj hh').symm
  subst hfix
  exact ⟨by decide, hlen, hmax, hwin⟩

/-- C10: after a successful `get_winner` on a house, every subsequent
`get_winner` call on that house returns `StillBidding` and leaves the whole
contract state unchanged: first, the immediately repeated call; second, the
call from any reachable state in which the house carries a non-sentinel
winner (exactly the houses on which `get_winner` already returned `Ok`,
which no later operation modifies). -/
theorem get_winner_second_call_still_bidding :
    (∀ (s : HouseBidding) (hid : Int) (s' : HouseBidding),
      HouseBidding.get_winner s hid = (Except.ok (), s') →
      HouseBidding.get_winner s' hid =
        (Except.error HouseError.StillBidding, s')) ∧
    (∀ s, Reachable s → ∀ hid h, s.house hid = some h →
      h.winner ≠ zero_address →
      HouseBidding.get_winner s hid =
        (Except.error HouseError.StillBidding, s)) := by
  constructor
  · intro s hid s' h
    obtain ⟨house, lb, hh, hlen, hlb, hch, hs'⟩ := get_winner_ok_elim s hid s' h
    have hh' : s'.house hid = some (winnerHouse house lb) := by
      rw [hs']
      show mapInsert s.house hid (winnerHouse house lb) hid = some _
      exact mapInsert_same _ _ _
    have hlen' : (winnerHouse house lb).bidder.length = 5 := hlen
    rw [get_winner_full_eq s' hid (winnerHouse house lb) hh' hlen']
    obtain ⟨b1, b2, b3, b4, b5, hbs⟩ := exists_five_of_length_eq hlen
    have hlb5 : lb = b5 := by
      rw [hbs] at hlb
      simp at hlb
      exact hlb.symm
    have hch5 : house.max_bid_price < b1.bidder_amount ∧
        b1.bidder_amount < b2.bidder_amount ∧
        b2.bidder_amount < b3.bidder_amount ∧
        b3.bidder_amount < b4.bidder_amount ∧
        b4.bidder_amount < b5.bidder_amount := by
      rw [amountsOf, hbs] at hch
      simp only [List.map_cons, List.map_nil, List.chain'_cons,
        List.chain'_singleton, and_true] at hch
      exact hch
    have hble : b1.bidder_amount ≤ (winnerHouse house lb).max_bid_price := by
      show b1.bidder_amount ≤ lb.bidder_amount
      rw [hlb5]
      obtain ⟨_, c1, c2, c3, c4⟩ := hch5
      omega
    rw [show (winnerHouse house lb).bidder = house.bidder from rfl, hbs]
    rw [winnerLoop_stuck hid b1 [b2, b3, b4, b5] (winnerHouse house lb) s' hble]
  · intro s hr hid h hk hw
    obtain ⟨_, hHok⟩ := (stateInv_reachable s hr).2.2 hid h hk
    obtain ⟨hlen, hch, hip, hnd, hd⟩ := hHok
    rcases hd with ⟨hw0, _⟩ | ⟨hl5, hmax, hwin⟩
    · exact absurd hw0 hw
    · rw [get_winner_full_eq s hid h hk hl5]
      obtain ⟨b1, b2, b3, b4, b5, hbs⟩ := exists_five_of_length_eq hl5
      have hch5 : b1.bidder_amount < b2.bidder_amount ∧
          b2.bidder_amount < b3.bidder_amount ∧
          b3.bidder_amount < b4.bidder_amount ∧
          b4.bidder_amount < b5.bidder_amount := by
        rw [amountsOf, hbs] at hch
        simp only [List.map_cons, List.map_nil, List.chain'_cons,
          List.chain'_singleton, and_true] at hch
        exact hch
      have hlastA : lastAmount h = b5.bidder_amount := by
        rw [lastAmount, hbs]
        rfl
      have hble : b1.bidder_amount ≤ h.max_bid_price := by
        rw [hmax, hlastA]
        obtain ⟨c1, c2, c3, c4⟩ := hch5
        omega
      rw [hbs, winnerLoop_stuck hid b1 [b2, b3, b4, b5] h s hble]

/-- Witness for C10 at the concrete resolved house of `exS7`. -/
theorem get_winner_second_call_still_bidding_witness :
    HouseBidding.get_winner exS7 0 =
      (Except.error HouseError.StillBidding, exS7) :=
  get_winner_second_call_still_bidding.1 exS6 0 exS7 rfl
